import Mathlib

/-!
Verification of two components of the go-mysql-server execution-plan layer:
the view-resolution analyzer pass (resolve_views.go) and the CachedResults
plan node with its caching row iterator (plan package). Shallow embedding:
pure Lean functions mirror the Go code; the mutex-guarded mutable fields of
the node and iterator become explicit state records threaded through the
step functions, and the external memory-accounting facility is an abstract
accept/reject predicate for appends plus a counter of disposal-callback
invocations.
-/

namespace GMS

/-! ## Rows, contexts and the child iterator

A row is an abstract tuple of values. A context is abstract. The child of a
CachedResults node is deterministic from the point of view of this layer, so
a child row iterator is embedded as the list of outcomes its successive Next
calls produce; an exhausted script keeps returning end-of-stream, matching a
well-behaved iterator that repeats io.EOF. Child.RowIter itself may fail, so
a child node maps the (context, row) arguments of RowIter to either an error
or a fresh iterator script. -/

abbrev Row := List Int

abbrev Ctx := Nat

/-- Outcome of one Next call on a row iterator: a row, clean end-of-stream
(io.EOF), or any other error (abstracted as a numeric code). -/
inductive NextOut where
  | row (r : Row)
  | eof
  | err (e : Nat)
deriving DecidableEq, Repr

abbrev ChildScript := List NextOut

abbrev ChildNode := Ctx → Row → Except Nat ChildScript

/-- One Next call on an embedded child iterator: pop the next scripted
outcome, or report end-of-stream once the script is exhausted. -/
def childNext : ChildScript → ChildScript × NextOut
  | [] => ([], .eof)
  | o :: os => (os, o)

/-! ## CachedResults node and cachedResultsIter states

CachedResults holds the fields guarded by its mutex: cache (nil or the list
of rows a RowsCache.Get would return), the dispose callback (embedded as a
flag recording whether it is set), and noCache. cachedResultsIter holds the
local cache and dispose fields, the remaining child script, and whether the
child iterator has been closed. Invocations of a dispose callback are
counted in an explicit disposals counter threaded beside the state. -/

structure CachedResults where
  cache : Option (List Row)
  dispose : Bool
  noCache : Bool
deriving DecidableEq, Repr

/-- NewCachedResults: cache nil, dispose nil, noCache false. -/
def CachedResults.new : CachedResults := ⟨none, false, false⟩

structure CachedResultsIter where
  cache : Option (List Row)
  dispose : Bool
  child : ChildScript
  childClosed : Bool
deriving DecidableEq, Repr

/-- Result of CachedResults.RowIter: an iterator over the rows of the stored
cache, the child iterator returned as-is (pass-through), or a fresh wrapping
cachedResultsIter. The pass-through and wrapping constructors record the
(context, row) arguments forwarded to Child.RowIter. -/
inductive RowIterRes where
  | cachedIter (rows : List Row)
  | childIter (it : ChildScript) (ctx : Ctx) (r : Row)
  | wrapped (it : CachedResultsIter) (ctx : Ctx) (r : Row)
deriving DecidableEq, Repr

/-- CachedResults.RowIter. With a stored cache, return an iterator over its
rows. Otherwise, with noCache set, delegate to Child.RowIter directly. In
the empty state, open the child iterator (propagating its error), allocate
a fresh rows cache with its dispose callback, and return the wrapping
iterator. The node state itself is never modified by RowIter. -/
def CachedResults.rowIter (n : CachedResults) (child : ChildNode) (ctx : Ctx)
    (r : Row) : CachedResults × Except Nat RowIterRes :=
  match n.cache with
  | some rows => (n, .ok (.cachedIter rows))
  | none =>
    if n.noCache then
      match child ctx r with
      | .ok ci => (n, .ok (.childIter ci ctx r))
      | .error e => (n, .error e)
    else
      match child ctx r with
      | .error e => (n, .error e)
      | .ok ci => (n, .ok (.wrapped ⟨some [], true, ci, false⟩ ctx r))

/-- cachedResultsIter.cleanUp: when the dispose callback is set, invoke it
and nil out both the local cache and the callback; otherwise do nothing. -/
def cleanUp (i : CachedResultsIter) (d : Nat) : CachedResultsIter × Nat :=
  if i.dispose then ({ i with cache := none, dispose := false }, d + 1)
  else (i, d)

/-- Combined node, iterator and disposal-counter state. -/
structure IterState where
  node : CachedResults
  iter : CachedResultsIter
  disposals : Nat
deriving DecidableEq, Repr

/-- cachedResultsIter.setCacheInParent: with the parent cache still nil,
install the local cache and dispose callback on the parent and nil out the
local fields; otherwise dispose the local cache via cleanUp. -/
def setCacheInParent (n : CachedResults) (i : CachedResultsIter) (d : Nat) :
    IterState :=
  match n.cache with
  | none =>
      ⟨{ n with cache := i.cache, dispose := i.dispose },
       { i with cache := none, dispose := false }, d⟩
  | some _ =>
      let cd := cleanUp i d
      ⟨n, cd.1, cd.2⟩

/-- State and outcome of one Next call on the wrapping iterator. -/
structure NextState where
  node : CachedResults
  iter : CachedResultsIter
  disposals : Nat
  out : NextOut
deriving DecidableEq, Repr

/-- cachedResultsIter.Next: pull from the child first. When the local cache
has been nilled out, pass the outcome through untouched. Otherwise: on
end-of-stream promote the local cache via setCacheInParent; on any other
error dispose via cleanUp; on a row, append it to the local cache, and when
the bounded cache rejects the append, dispose via cleanUp and set noCache on
the parent. The outcome of the child is returned to the caller in every
branch. -/
def iterNext (addOk : List Row → Row → Bool) (n : CachedResults)
    (i : CachedResultsIter) (d : Nat) : NextState :=
  let co := childNext i.child
  let i1 : CachedResultsIter := { i with child := co.1 }
  match i1.cache with
  | none => ⟨n, i1, d, co.2⟩
  | some rows =>
    match co.2 with
    | .eof =>
        let s := setCacheInParent n i1 d
        ⟨s.node, s.iter, s.disposals, .eof⟩
    | .err e =>
        let cd := cleanUp i1 d
        ⟨n, cd.1, cd.2, .err e⟩
    | .row r =>
        if addOk rows r then
          ⟨n, { i1 with cache := some (rows ++ [r]) }, d, .row r⟩
        else
          let cd := cleanUp i1 d
          ⟨{ n with noCache := true }, cd.1, cd.2, .row r⟩

/-- cachedResultsIter.Close: cleanUp, then close the child iterator. -/
def iterClose (i : CachedResultsIter) (d : Nat) : CachedResultsIter × Nat :=
  let cd := cleanUp i d
  ({ cd.1 with childClosed := true }, cd.2)

/-! ## Multi-step execution -/

/-- State after a run of Next calls, with the outcomes in order. -/
structure RunState where
  node : CachedResults
  iter : CachedResultsIter
  disposals : Nat
  outs : List NextOut
deriving DecidableEq, Repr

/-- Run a fixed number of Next calls on the wrapping iterator. -/
def runNexts (addOk : List Row → Row → Bool) :
    Nat → CachedResults → CachedResultsIter → Nat → RunState
  | 0, n, i, d => ⟨n, i, d, []⟩
  | k + 1, n, i, d =>
      let s := iterNext addOk n i d
      let rest := runNexts addOk k s.node s.iter s.disposals
      ⟨rest.node, rest.iter, rest.disposals, s.out :: rest.outs⟩

/-- Outcomes a bare child iterator would deliver over a fixed number of
Next calls, with the remaining script. -/
def scriptOuts : Nat → ChildScript → ChildScript × List NextOut
  | 0, cs => (cs, [])
  | k + 1, cs =>
      let co := childNext cs
      let rest := scriptOuts k co.1
      (rest.1, co.2 :: rest.2)

/-- An operation on a live wrapping iterator: a Next call or a Close call. -/
inductive IterOp where
  | next
  | close
deriving DecidableEq, Repr

/-- Apply one iterator operation to the combined state. -/
def stepOp (addOk : List Row → Row → Bool) (op : IterOp) (s : IterState) :
    IterState :=
  match op with
  | .next =>
      let t := iterNext addOk s.node s.iter s.disposals
      ⟨t.node, t.iter, t.disposals⟩
  | .close =>
      let cd := iterClose s.iter s.disposals
      ⟨s.node, cd.1, cd.2⟩

/-- Apply a sequence of iterator operations to the combined state. -/
def runOps (addOk : List Row → Row → Bool) : List IterOp → IterState → IterState
  | [], s => s
  | op :: ops, s => runOps addOk ops (stepOp addOk op s)

/-! ## Plan trees and view resolution

A plan node is either an unresolved table reference (database, name,
optional AS OF qualifier) or a generic operator node with a tag and a list
of children, standing for every other node variant. AS OF qualifier values
are abstract and compared by value. Errors cover the distinguished
ErrIncompatibleAsOf and ErrNonExistingView, any other registry error
(abstracted by a code), and ErrInvalidChildrenNumber from rebuilding. -/

inductive SqlErr where
  | incompatibleAsOf (outer inner : Nat)
  | nonExistingView
  | otherLookup (code : Nat)
  | invalidChildrenNumber
deriving DecidableEq, Repr

inductive Node where
  | utable (db nm : String) (asOf : Option Nat)
  | opn (tag : Nat) (children : List Node)
deriving Repr

/-- Node.Children. An unresolved table reference has no children. -/
def Node.children : Node → List Node
  | .utable _ _ _ => []
  | .opn _ cs => cs

/-- Node.WithChildren: rebuild with a new child list, failing with
ErrInvalidChildrenNumber when the count differs from the original. -/
def Node.withChildren : Node → List Node → Except SqlErr Node
  | .utable db nm a, cs =>
      if cs.length = 0 then .ok (.utable db nm a)
      else .error .invalidChildrenNumber
  | .opn t old, cs =>
      if cs.length = old.length then .ok (.opn t cs)
      else .error .invalidChildrenNumber

mutual

/-- Node.Resolved: an unresolved table reference is never resolved; a
generic node is resolved exactly when all its children are. -/
def Node.resolvedB : Node → Bool
  | .utable _ _ _ => false
  | .opn _ cs => allResolved cs

def allResolved : List Node → Bool
  | [] => true
  | c :: cs => c.resolvedB && allResolved cs

end

mutual

/-- Modelled from the spec: plan.TransformUp, whose source file is not part
of the examined material. Bottom-up traversal applying the transformation to
every node, children before parents: the children are rewritten first, the
node is rebuilt from the new children, and the function is applied to the
rebuilt node; for a node with no children the rebuild is the identity, so
the function is applied directly. Any error aborts the traversal and
propagates. -/
def transformUp (f : Node → Except SqlErr Node) : Node → Except SqlErr Node
  | .utable db nm a => f (.utable db nm a)
  | .opn t cs =>
      match transformUpList f cs with
      | .error e => .error e
      | .ok cs' =>
          match (Node.opn t cs).withChildren cs' with
          | .error e => .error e
          | .ok n' => f n'

def transformUpList (f : Node → Except SqlErr Node) :
    List Node → Except SqlErr (List Node)
  | [] => .ok []
  | c :: cs =>
      match transformUp f c with
      | .error e => .error e
      | .ok c' =>
          match transformUpList f cs with
          | .error e => .error e
          | .ok cs' => .ok (c' :: cs')

end

/-- The inner transformation of resolveViews (the closure applied to the
single child of a view definition when the outer reference carries an AS OF
qualifier): a non-reference node passes through; a reference that already
carries a qualifier raises ErrIncompatibleAsOf naming both values; an
unqualified reference receives the outer qualifier. -/
def applyAsOf (outer : Nat) : Node → Except SqlErr Node
  | .utable _ _ (some inner) => .error (.incompatibleAsOf outer inner)
  | .utable db nm none => .ok (.utable db nm (some outer))
  | .opn t cs => .ok (.opn t cs)

/-- The view registry of the catalog, external to this component: lookup by
(database, name) yields the definition subtree of the registered view, or
ErrNonExistingView, or any other error. -/
abbrev Registry := String → String → Except SqlErr Node

/-- The database a reference resolves against: its explicit database, else
the current database of the session. -/
def resolveDb (db curDb : String) : String :=
  if db = "" then curDb else db

/-- The per-node transformation of resolveViews: skip resolved nodes and
non-reference nodes; look the reference up in the view registry; on success,
with an AS OF qualifier present and a single-child definition, rewrite that
child with applyAsOf and rebuild the definition, otherwise substitute the
definition verbatim; a missing view leaves the node unchanged and any other
lookup error propagates. -/
def resolveViewsFn (curDb : String) (reg : Registry) (n : Node) :
    Except SqlErr Node :=
  if n.resolvedB then .ok n
  else
    match n with
    | .utable db nm asOf =>
        match reg (resolveDb db curDb) nm with
        | .ok viewDef =>
            match asOf with
            | some a =>
                match viewDef.children with
                | [c] =>
                    match transformUp (applyAsOf a) c with
                    | .error e => .error e
                    | .ok child => viewDef.withChildren [child]
                | _ => .ok viewDef
            | none => .ok viewDef
        | .error .nonExistingView => .ok n
        | .error e => .error e
    | .opn t cs => .ok (.opn t cs)

/-- resolveViews: the per-node transformation applied over the whole tree
via TransformUp. -/
def resolveViews (curDb : String) (reg : Registry) (n : Node) :
    Except SqlErr Node :=
  transformUp (resolveViewsFn curDb reg) n

mutual

/-- Spec-level description of qualifier propagation, for comparison with
the computation of resolveViews: push the outer qualifier onto every
unqualified reference in the tree, leaving other nodes unchanged. -/
def specPropagateAsOf (a : Nat) : Node → Node
  | .utable db nm none => .utable db nm (some a)
  | .utable db nm (some v) => .utable db nm (some v)
  | .opn t cs => .opn t (specPropagateAsOfList a cs)

def specPropagateAsOfList (a : Nat) : List Node → List Node
  | [] => []
  | c :: cs => specPropagateAsOf a c :: specPropagateAsOfList a cs

end

mutual

/-- Whether no reference anywhere in the tree carries its own qualifier. -/
def allUnqualified : Node → Bool
  | .utable _ _ a => a.isNone
  | .opn _ cs => allUnqualifiedList cs

def allUnqualifiedList : List Node → Bool
  | [] => true
  | c :: cs => allUnqualified c && allUnqualifiedList cs

end

/-! ## Basic lemmas about the caching iterator -/

/-- RowIter never modifies the node state; only iterator steps do. -/
theorem rowIter_node_unchanged (n : CachedResults) (child : ChildNode)
    (ctx : Ctx) (r : Row) : (n.rowIter child ctx r).1 = n := by
  unfold CachedResults.rowIter
  rcases n with ⟨nc, ndisp, nnoc⟩
  rcases nc with _ | rows
  · dsimp only
    split
    · rcases child ctx r with e | ci <;> rfl
    · rcases child ctx r with e | ci <;> rfl
  · rfl

/-- The noCache flag is never cleared by a Next step on a wrapping
iterator: once true it stays true. -/
theorem iterNext_noCache_mono (addOk : List Row → Row → Bool)
    (n : CachedResults) (i : CachedResultsIter) (d : Nat)
    (h : n.noCache = true) : (iterNext addOk n i d).node.noCache = true := by
  unfold iterNext setCacheInParent cleanUp
  rcases i with ⟨ic, idisp, ich, icc⟩
  dsimp only
  rcases ic with _ | rows
  · exact h
  · rcases (childNext ich).2 with r | _ | e
    · dsimp only
      split
      · exact h
      · split <;> simp [h]
    · dsimp only
      rcases hn : n.cache with _ | c
      · simpa using h
      · simp only [hn]
        simpa using h
    · split <;> simpa using h

/-- One-step unfolding of runNexts. -/
theorem runNexts_succ (addOk : List Row → Row → Bool) (k : Nat)
    (n : CachedResults) (i : CachedResultsIter) (d : Nat) :
    runNexts addOk (k + 1) n i d =
      ⟨(runNexts addOk k (iterNext addOk n i d).node (iterNext addOk n i d).iter
          (iterNext addOk n i d).disposals).node,
       (runNexts addOk k (iterNext addOk n i d).node (iterNext addOk n i d).iter
          (iterNext addOk n i d).disposals).iter,
       (runNexts addOk k (iterNext addOk n i d).node (iterNext addOk n i d).iter
          (iterNext addOk n i d).disposals).disposals,
       (iterNext addOk n i d).out ::
         (runNexts addOk k (iterNext addOk n i d).node
            (iterNext addOk n i d).iter
            (iterNext addOk n i d).disposals).outs⟩ := rfl

/-- Next calls on a wrapping iterator whose local cache has been nilled out
pass the child outcomes through verbatim and leave the node, the disposal
counter and the dispose field untouched. -/
theorem runNexts_passthrough (addOk : List Row → Row → Bool) (k : Nat)
    (n : CachedResults) (cs : ChildScript) (idisp icc : Bool) (d : Nat) :
    runNexts addOk k n ⟨none, idisp, cs, icc⟩ d =
      ⟨n, ⟨none, idisp, (scriptOuts k cs).1, icc⟩, d, (scriptOuts k cs).2⟩ := by
  induction k generalizing cs with
  | zero => simp [runNexts, scriptOuts]
  | succ k ih => simp [runNexts, scriptOuts, iterNext, ih]

/-- C10: once a CachedResults node holds an installed cache, RowIter reads
only the stored cache: the returned iterator is the read-back of the cached
rows, and the result is identical across arbitrary differing child, context
and row arguments. -/
theorem c10_cached_rowiter_ignores_arguments (n : CachedResults)
    (c : List Row) (h : n.cache = some c) (child1 child2 : ChildNode)
    (ctx1 ctx2 : Ctx) (r1 r2 : Row) :
    n.rowIter child1 ctx1 r1 = (n, .ok (.cachedIter c)) ∧
    n.rowIter child1 ctx1 r1 = n.rowIter child2 ctx2 r2 := by
  unfold CachedResults.rowIter
  rw [h]
  exact ⟨rfl, rfl⟩

/-- Witness for C10 at a concrete cached node and differing arguments. -/
theorem c10_cached_rowiter_ignores_arguments_witness :
    CachedResults.rowIter ⟨some [[2]], true, false⟩ (fun _ _ => .ok []) 0 []
      = (⟨some [[2]], true, false⟩, .ok (.cachedIter [[2]])) ∧
    CachedResults.rowIter ⟨some [[2]], true, false⟩ (fun _ _ => .ok []) 0 []
      = CachedResults.rowIter ⟨some [[2]], true, false⟩
          (fun _ _ => .error 7) 5 [9] :=
  c10_cached_rowiter_ignores_arguments ⟨some [[2]], true, false⟩ [[2]] rfl
    (fun _ _ => .ok []) (fun _ _ => .error 7) 0 5 [] [9]

/-- C6: a non-EOF child error during Next disposes the partial local cache
exactly once, nils the local cache and dispose fields, leaves the node state
empty exactly as it was (cache nil, noCache false), and returns the same
error; a later RowIter call on that node may therefore attempt caching
again with a fresh wrapping iterator. -/
theorem c6_child_error_disposes_once_node_empty
    (addOk : List Row → Row → Bool) (n : CachedResults)
    (i : CachedResultsIter) (rows : List Row) (e : Nat) (cs : ChildScript)
    (d : Nat) (hnc : n.cache = none) (hnf : n.noCache = false)
    (hic : i.cache = some rows) (hid : i.dispose = true)
    (hch : i.child = .err e :: cs) :
    iterNext addOk n i d = ⟨n, ⟨none, false, cs, i.childClosed⟩, d + 1, .err e⟩ ∧
    (∀ child ctx r ci, child ctx r = .ok ci →
      n.rowIter child ctx r =
        (n, .ok (.wrapped ⟨some [], true, ci, false⟩ ctx r))) := by
  rcases i with ⟨ic, idisp, ich, icc⟩
  simp only at hic hid hch
  subst hic hid hch
  constructor
  · simp [iterNext, childNext, cleanUp]
  · intro child ctx r ci hcr
    rcases n with ⟨nc, ndisp, nnoc⟩
    simp only at hnc hnf
    subst hnc hnf
    simp [CachedResults.rowIter, hcr]

/-- Witness for C6 at a concrete state: one row cached, then the child
fails with error code 3. -/
theorem c6_child_error_disposes_once_node_empty_witness :
    iterNext (fun _ _ => true) ⟨none, false, false⟩
        ⟨some [[1]], true, [.err 3, .row [2]], false⟩ 0 =
      ⟨⟨none, false, false⟩, ⟨none, false, [.row [2]], false⟩, 1, .err 3⟩ ∧
    (∀ child ctx r ci, child ctx r = .ok ci →
      CachedResults.rowIter ⟨none, false, false⟩ child ctx r =
        (⟨none, false, false⟩, .ok (.wrapped ⟨some [], true, ci, false⟩ ctx r))) :=
  c6_child_error_disposes_once_node_empty (fun _ _ => true)
    ⟨none, false, false⟩ ⟨some [[1]], true, [.err 3, .row [2]], false⟩
    [[1]] 3 [.row [2]] 0 rfl rfl rfl rfl rfl

/-- C7: on clean end-of-stream the wrapping iterator installs its local
cache on the parent exactly when the parent holds none (transferring the
dispose callback, invoking no disposal), and otherwise disposes the local
cache exactly once; in both outcomes the local cache and dispose fields are
nilled out. -/
theorem c7_eof_installs_iff_parent_empty
    (addOk : List Row → Row → Bool) (n : CachedResults)
    (i : CachedResultsIter) (rows : List Row) (cs : ChildScript) (d : Nat)
    (hic : i.cache = some rows) (hid : i.dispose = true)
    (hch : i.child = .eof :: cs) :
    (n.cache = none →
      iterNext addOk n i d =
        ⟨⟨some rows, true, n.noCache⟩, ⟨none, false, cs, i.childClosed⟩, d,
          .eof⟩) ∧
    (∀ c, n.cache = some c →
      iterNext addOk n i d =
        ⟨n, ⟨none, false, cs, i.childClosed⟩, d + 1, .eof⟩) := by
  rcases i with ⟨ic, idisp, ich, icc⟩
  simp only at hic hid hch
  subst hic hid hch
  constructor
  · intro hnc
    rcases n with ⟨nc, ndisp, nnoc⟩
    simp only at hnc
    subst hnc
    simp [iterNext, childNext, setCacheInParent]
  · intro c hnc
    rcases n with ⟨nc, ndisp, nnoc⟩
    simp only at hnc
    subst hnc
    simp [iterNext, childNext, setCacheInParent, cleanUp]

/-- Witness for C7 exercising both branches at concrete states. -/
theorem c7_eof_installs_iff_parent_empty_witness :
    iterNext (fun _ _ => true) ⟨none, false, true⟩
        ⟨some [[4]], true, [.eof], true⟩ 2 =
      ⟨⟨some [[4]], true, true⟩, ⟨none, false, [], true⟩, 2, .eof⟩ ∧
    iterNext (fun _ _ => true) ⟨some [[9]], true, false⟩
        ⟨some [[4]], true, [.eof], false⟩ 0 =
      ⟨⟨some [[9]], true, false⟩, ⟨none, false, [], false⟩, 1, .eof⟩ :=
  ⟨(c7_eof_installs_iff_parent_empty (fun _ _ => true) ⟨none, false, true⟩
      ⟨some [[4]], true, [.eof], true⟩ [[4]] [] 2 rfl rfl rfl).1 rfl,
   (c7_eof_installs_iff_parent_empty (fun _ _ => true) ⟨some [[9]], true, false⟩
      ⟨some [[4]], true, [.eof], false⟩ [[4]] [] 0 rfl rfl rfl).2 [[9]] rfl⟩

/-- C3: when the bounded cache rejects an append during a Next call on a
wrapping iterator over an empty node, the local cache is disposed (exactly
one disposal), the noCache flag is set on the node with the row still
returned and no error introduced; every subsequent Next call passes the
child outcomes through untouched; the noCache flag survives any further
iterator step, RowIter never modifies the node, and every later RowIter
call delegates directly to the child. -/
theorem c3_overflow_degrades_to_passthrough
    (addOk : List Row → Row → Bool) (n : CachedResults)
    (i : CachedResultsIter) (rows : List Row) (rv : Row) (cs : ChildScript)
    (d : Nat) (hnc : n.cache = none) (hnf : n.noCache = false)
    (hic : i.cache = some rows) (hid : i.dispose = true)
    (hch : i.child = .row rv :: cs) (hrej : addOk rows rv = false) :
    iterNext addOk n i d =
      ⟨⟨none, n.dispose, true⟩, ⟨none, false, cs, i.childClosed⟩, d + 1,
        .row rv⟩ ∧
    (∀ k d2,
      runNexts addOk k ⟨none, n.dispose, true⟩ ⟨none, false, cs, i.childClosed⟩
          d2 =
        ⟨⟨none, n.dispose, true⟩,
          ⟨none, false, (scriptOuts k cs).1, i.childClosed⟩, d2,
          (scriptOuts k cs).2⟩) ∧
    (∀ addOk2 i2 d2,
      (iterNext addOk2 ⟨none, n.dispose, true⟩ i2 d2).node.noCache = true) ∧
    (∀ child ctx r,
      (CachedResults.rowIter ⟨none, n.dispose, true⟩ child ctx r).1 =
        ⟨none, n.dispose, true⟩) ∧
    (∀ child ctx r ci, child ctx r = .ok ci →
      CachedResults.rowIter ⟨none, n.dispose, true⟩ child ctx r =
        (⟨none, n.dispose, true⟩, .ok (.childIter ci ctx r))) := by
  rcases i with ⟨ic, idisp, ich, icc⟩
  simp only at hic hid hch
  subst hic hid hch
  refine ⟨?_, ?_, ?_, ?_, ?_⟩
  · rcases n with ⟨nc, ndisp, nnoc⟩
    simp only at hnc hnf
    subst hnc hnf
    simp [iterNext, childNext, cleanUp, hrej]
  · intro k d2
    exact runNexts_passthrough addOk k ⟨none, n.dispose, true⟩ cs false icc d2
  · intro addOk2 i2 d2
    exact iterNext_noCache_mono addOk2 ⟨none, n.dispose, true⟩ i2 d2 rfl
  · intro child ctx r
    exact rowIter_node_unchanged ⟨none, n.dispose, true⟩ child ctx r
  · intro child ctx r ci hcr
    simp [CachedResults.rowIter, hcr]

/-- Witness for C3: a one-row cache rejects the second row [5]. -/
theorem c3_overflow_degrades_to_passthrough_witness :
    iterNext (fun rows _ => rows.length = 0) ⟨none, false, false⟩
        ⟨some [[1]], true, [.row [5], .row [6]], false⟩ 0 =
      ⟨⟨none, false, true⟩, ⟨none, false, [.row [6]], false⟩, 1, .row [5]⟩ ∧
    (∀ k d2,
      runNexts (fun rows _ => rows.length = 0) k ⟨none, false, true⟩
          ⟨none, false, [.row [6]], false⟩ d2 =
        ⟨⟨none, false, true⟩,
          ⟨none, false, (scriptOuts k [.row [6]]).1, false⟩, d2,
          (scriptOuts k [.row [6]]).2⟩) ∧
    (∀ addOk2 i2 d2,
      (iterNext addOk2 ⟨none, false, true⟩ i2 d2).node.noCache = true) ∧
    (∀ child ctx r,
      (CachedResults.rowIter ⟨none, false, true⟩ child ctx r).1 =
        ⟨none, false, true⟩) ∧
    (∀ child ctx r ci, child ctx r = .ok ci →
      CachedResults.rowIter ⟨none, false, true⟩ child ctx r =
        (⟨none, false, true⟩, .ok (.childIter ci ctx r))) :=
  c3_overflow_degrades_to_passthrough (fun rows _ => rows.length = 0)
    ⟨none, false, false⟩ ⟨some [[1]], true, [.row [5], .row [6]], false⟩
    [[1]] [5] [.row [6]] 0 rfl rfl rfl rfl rfl (by simp)

/-- Draining a wrapping iterator over a deterministic child script of rows:
every row is appended to the local cache in production order, and the final
end-of-stream step installs the accumulated cache on the empty parent. -/
theorem runNexts_drain_rows (rest pre : List Row) (nd icc : Bool) (d : Nat) :
    runNexts (fun _ _ => true) (rest.length + 1) ⟨none, nd, false⟩
        ⟨some pre, true, rest.map NextOut.row, icc⟩ d =
      ⟨⟨some (pre ++ rest), true, false⟩, ⟨none, false, [], icc⟩, d,
        rest.map NextOut.row ++ [.eof]⟩ := by
  induction rest generalizing pre with
  | nil => simp [runNexts, iterNext, childNext, setCacheInParent]
  | cons r rs ih =>
      have step := ih (pre ++ [r])
      simp only [List.length_cons, List.map_cons]
      rw [runNexts_succ]
      simp only [iterNext, childNext]
      simp [step, List.append_assoc]

/-- C2: on a fresh CachedResults node over a deterministic child producing
the rows rs, the first RowIter call returns a wrapping iterator; draining it
to clean end-of-stream yields exactly the child rows in order and installs
exactly rs as the node cache; and every subsequent RowIter call, for any
child, context and row arguments, replays exactly rs from the cache without
consulting the child. -/
theorem c2_first_drain_caches_then_replays (rs : List Row) (ctx ctx2 : Ctx)
    (r r2 : Row) (child2 : ChildNode) :
    CachedResults.rowIter CachedResults.new
        (fun _ _ => .ok (rs.map NextOut.row)) ctx r =
      (CachedResults.new,
        .ok (.wrapped ⟨some [], true, rs.map NextOut.row, false⟩ ctx r)) ∧
    runNexts (fun _ _ => true) (rs.length + 1) CachedResults.new
        ⟨some [], true, rs.map NextOut.row, false⟩ 0 =
      ⟨⟨some rs, true, false⟩, ⟨none, false, [], false⟩, 0,
        rs.map NextOut.row ++ [.eof]⟩ ∧
    CachedResults.rowIter ⟨some rs, true, false⟩ child2 ctx2 r2 =
      (⟨some rs, true, false⟩, .ok (.cachedIter rs)) := by
  refine ⟨rfl, ?_, rfl⟩
  simpa using runNexts_drain_rows rs [] false false 0

/-! ## Disposal accounting for the wrapping iterator -/

/-- Weight of a still-pending dispose callback on an iterator. -/
def dw (i : CachedResultsIter) : Nat := if i.dispose then 1 else 0

theorem cleanUp_dispose_bound (i : CachedResultsIter) (d : Nat) :
    (cleanUp i d).2 + dw (cleanUp i d).1 ≤ d + dw i := by
  unfold cleanUp dw
  split <;> simp

theorem iterNext_dispose_bound (addOk : List Row → Row → Bool)
    (n : CachedResults) (i : CachedResultsIter) (d : Nat) :
    (iterNext addOk n i d).disposals + dw (iterNext addOk n i d).iter ≤
      d + dw i := by
  rcases i with ⟨ic, idisp, ich, icc⟩
  unfold iterNext setCacheInParent cleanUp dw
  dsimp only
  rcases ic with _ | rows
  · simp
  · rcases (childNext ich).2 with r | _ | e <;> dsimp only
    · split
      · simp
      · split <;> simp
    · split
      · dsimp only
        split <;> simp_all
      · split <;> simp
    · split <;> simp

theorem stepOp_dispose_bound (addOk : List Row → Row → Bool) (op : IterOp)
    (s : IterState) :
    (stepOp addOk op s).disposals + dw (stepOp addOk op s).iter ≤
      s.disposals + dw s.iter := by
  rcases op with _ | _
  · exact iterNext_dispose_bound addOk s.node s.iter s.disposals
  · have h := cleanUp_dispose_bound s.iter s.disposals
    simpa [stepOp, iterClose, dw] using h

theorem runOps_dispose_bound (addOk : List Row → Row → Bool)
    (ops : List IterOp) (s : IterState) :
    (runOps addOk ops s).disposals + dw (runOps addOk ops s).iter ≤
      s.disposals + dw s.iter := by
  induction ops generalizing s with
  | nil => simp [runOps]
  | cons op ops ih =>
      exact le_trans (ih (stepOp addOk op s)) (stepOp_dispose_bound addOk op s)

/-- Invariant of a live wrapping iterator: a still-held local cache always
has its dispose callback set. -/
def goodIter (i : CachedResultsIter) : Prop := i.dispose = false → i.cache = none

theorem cleanUp_good (i : CachedResultsIter) (d : Nat) (h : goodIter i) :
    goodIter (cleanUp i d).1 := by
  unfold cleanUp goodIter at *
  split <;> simp_all

theorem cleanUp_cache_none (i : CachedResultsIter) (d : Nat) (h : goodIter i) :
    (cleanUp i d).1.cache = none := by
  unfold cleanUp goodIter at *
  split <;> simp_all

theorem iterNext_good (addOk : List Row → Row → Bool) (n : CachedResults)
    (i : CachedResultsIter) (d : Nat) (h : goodIter i) :
    goodIter (iterNext addOk n i d).iter := by
  rcases i with ⟨ic, idisp, ich, icc⟩
  unfold goodIter at *
  unfold iterNext setCacheInParent cleanUp
  dsimp only
  rcases ic with _ | rows
  · exact h
  · have hd : idisp = true := by
      cases idisp
      · exact absurd (h rfl) (by simp)
      · rfl
    subst hd
    rcases (childNext ich).2 with r | _ | e <;> dsimp only
    · split
      · intro hF
        simp at hF
      · split
        · intro _
          rfl
        · intro hF
          simp at hF
    · split
      · intro _
        rfl
      · split
        · intro _
          rfl
        · intro hF
          simp at hF
    · split
      · intro _
        rfl
      · intro hF
        simp at hF

theorem stepOp_good (addOk : List Row → Row → Bool) (op : IterOp)
    (s : IterState) (h : goodIter s.iter) : goodIter (stepOp addOk op s).iter := by
  rcases op with _ | _
  · exact iterNext_good addOk s.node s.iter s.disposals h
  · have hg := cleanUp_good s.iter s.disposals h
    unfold goodIter at *
    simpa [stepOp, iterClose] using hg

theorem runOps_good (addOk : List Row → Row → Bool) (ops : List IterOp)
    (s : IterState) (h : goodIter s.iter) : goodIter (runOps addOk ops s).iter := by
  induction ops generalizing s with
  | nil => simpa [runOps] using h
  | cons op ops ih => exact ih (stepOp addOk op s) (stepOp_good addOk op s h)

/-- C9: over the whole lifetime of a wrapping iterator (any sequence of
Next and Close calls, including budget-overflow or child-error cleanups),
the dispose callback is invoked at most once, and a final Close always
leaves no held local cache, closes the child iterator, and never disposes
a second time after an earlier cleanup. -/
theorem c9_dispose_at_most_once_close_total (addOk : List Row → Row → Bool)
    (cs : ChildScript) (n0 : CachedResults) (ops : List IterOp) :
    (runOps addOk ops ⟨n0, ⟨some [], true, cs, false⟩, 0⟩).disposals ≤ 1 ∧
    (iterClose (runOps addOk ops ⟨n0, ⟨some [], true, cs, false⟩, 0⟩).iter
        (runOps addOk ops ⟨n0, ⟨some [], true, cs, false⟩, 0⟩).disposals).1.cache
      = none ∧
    (iterClose (runOps addOk ops ⟨n0, ⟨some [], true, cs, false⟩, 0⟩).iter
        (runOps addOk ops ⟨n0, ⟨some [], true, cs, false⟩, 0⟩).disposals).1.childClosed
      = true ∧
    (iterClose (runOps addOk ops ⟨n0, ⟨some [], true, cs, false⟩, 0⟩).iter
        (runOps addOk ops ⟨n0, ⟨some [], true, cs, false⟩, 0⟩).disposals).2
      ≤ 1 := by
  have hbound := runOps_dispose_bound addOk ops ⟨n0, ⟨some [], true, cs, false⟩, 0⟩
  have hstart : (⟨n0, ⟨some [], true, cs, false⟩, 0⟩ : IterState).disposals +
      dw (⟨n0, ⟨some [], true, cs, false⟩, 0⟩ : IterState).iter = 1 := by
    simp [dw]
  rw [hstart] at hbound
  have hgood : goodIter (runOps addOk ops ⟨n0, ⟨some [], true, cs, false⟩, 0⟩).iter :=
    runOps_good addOk ops ⟨n0, ⟨some [], true, cs, false⟩, 0⟩ (by intro hF; simp at hF)
  set s := runOps addOk ops ⟨n0, ⟨some [], true, cs, false⟩, 0⟩ with hs
  have hclose := cleanUp_dispose_bound s.iter s.disposals
  refine ⟨by omega, ?_, ?_, ?_⟩
  · have := cleanUp_cache_none s.iter s.disposals hgood
    simpa [iterClose] using this
  · simp [iterClose]
  · have hw : dw s.iter ≥ 0 := Nat.zero_le _
    simp only [iterClose]
    omega

/-! ## Lemmas about view resolution -/

/-- The per-node transformation leaves every non-reference node unchanged. -/
theorem resolveViewsFn_opn (curDb : String) (reg : Registry) (t : Nat)
    (cs : List Node) :
    resolveViewsFn curDb reg (.opn t cs) = .ok (.opn t cs) := by
  unfold resolveViewsFn
  split <;> rfl

mutual

theorem transformUp_resolved_id (curDb : String) (reg : Registry) (n : Node)
    (h : n.resolvedB = true) :
    transformUp (resolveViewsFn curDb reg) n = .ok n := by
  match n with
  | .utable db nm a => simp [Node.resolvedB] at h
  | .opn t cs =>
      have hcs : allResolved cs = true := by simpa [Node.resolvedB] using h
      have hl := transformUpList_resolved_id curDb reg cs hcs
      simp [transformUp, hl, Node.withChildren, resolveViewsFn_opn]

theorem transformUpList_resolved_id (curDb : String) (reg : Registry)
    (l : List Node) (h : allResolved l = true) :
    transformUpList (resolveViewsFn curDb reg) l = .ok l := by
  match l with
  | [] => simp [transformUpList]
  | c :: cs =>
      have h1 : c.resolvedB = true := by
        simp [allResolved] at h
        exact h.1
      have h2 : allResolved cs = true := by
        simp [allResolved] at h
        exact h.2
      have hc := transformUp_resolved_id curDb reg c h1
      have hcs := transformUpList_resolved_id curDb reg cs h2
      simp [transformUpList, hc, hcs]

end

/-- Rewriting a child list with one unresolved reference in focus, all other
elements being resolved subtrees: the outcome is decided by the focused
element alone. -/
theorem transformUpList_focus (curDb : String) (reg : Registry)
    (pre post : List Node) (x : Node)
    (hpre : allResolved pre = true) (hpost : allResolved post = true) :
    transformUpList (resolveViewsFn curDb reg) (pre ++ x :: post) =
      match transformUp (resolveViewsFn curDb reg) x with
      | .error e => .error e
      | .ok x' => .ok (pre ++ x' :: post) := by
  induction pre with
  | nil =>
      have hpost' := transformUpList_resolved_id curDb reg post hpost
      rcases hx : transformUp (resolveViewsFn curDb reg) x with e | x' <;>
        simp [transformUpList, hx, hpost']
  | cons p ps ih =>
      have h1 : p.resolvedB = true := by
        simp [allResolved] at hpre
        exact hpre.1
      have h2 : allResolved ps = true := by
        simp [allResolved] at hpre
        exact hpre.2
      have hp := transformUp_resolved_id curDb reg p h1
      rcases hx : transformUp (resolveViewsFn curDb reg) x with e | x' <;>
        have hih := ih h2 <;> rw [hx] at hih <;>
        simp [transformUpList, hp, hih, hx]

theorem specPropagateAsOfList_length (a : Nat) (l : List Node) :
    (specPropagateAsOfList a l).length = l.length := by
  induction l with
  | nil => simp [specPropagateAsOfList]
  | cons c cs ih => simp [specPropagateAsOfList, ih]

mutual

theorem transformUp_applyAsOf (a : Nat) (n : Node)
    (h : allUnqualified n = true) :
    transformUp (applyAsOf a) n = .ok (specPropagateAsOf a n) := by
  match n with
  | .utable db nm ao =>
      match ao with
      | none => simp [transformUp, applyAsOf, specPropagateAsOf]
      | some v => simp [allUnqualified] at h
  | .opn t cs =>
      have hcs : allUnqualifiedList cs = true := by
        simpa [allUnqualified] using h
      have hl := transformUpList_applyAsOf a cs hcs
      simp [transformUp, hl, Node.withChildren, specPropagateAsOfList_length,
        applyAsOf, specPropagateAsOf]

theorem transformUpList_applyAsOf (a : Nat) (l : List Node)
    (h : allUnqualifiedList l = true) :
    transformUpList (applyAsOf a) l = .ok (specPropagateAsOfList a l) := by
  match l with
  | [] => simp [transformUpList, specPropagateAsOfList]
  | c :: cs =>
      have h1 : allUnqualified c = true := by
        simp [allUnqualifiedList] at h
        exact h.1
      have h2 : allUnqualifiedList cs = true := by
        simp [allUnqualifiedList] at h
        exact h.2
      simp [transformUpList, transformUp_applyAsOf a c h1,
        transformUpList_applyAsOf a cs h2, specPropagateAsOfList]

end

/-! ## Concrete registries used by witnesses and counterexamples -/

/-- A registered view definition whose single child contains one inner
unqualified reference. -/
def viewDefW : Node := .opn 7 [.opn 3 [.utable "" "t" none]]

/-- A registered view definition whose single child is an inner reference
already carrying the qualifier value 5. -/
def viewDefQ : Node := .opn 7 [.utable "" "t" (some 5)]

def regW : Registry := fun db nm =>
  if db = "dba" then
    if nm = "v1" then .ok viewDefW else .error .nonExistingView
  else .error .nonExistingView

def regQ : Registry := fun db nm =>
  if db = "dba" then
    if nm = "vq" then .ok viewDefQ else .error .nonExistingView
  else .error .nonExistingView

def regE : Registry := fun db nm =>
  if db = "dba" then
    if nm = "vb" then .error (.otherLookup 42) else .error .nonExistingView
  else .error .nonExistingView

/-- C4: a reference to a name with no registered view in the explicit (else
current) database is returned unchanged, and a reference resolving to a
registered view with no temporal qualifier is replaced by the stored
definition subtree verbatim; both per node and through the whole-tree
traversal applied to the reference. -/
theorem c4_substitution_and_unregistered (curDb : String) (reg : Registry)
    (db nm : String) (asOf : Option Nat) :
    (reg (resolveDb db curDb) nm = .error .nonExistingView →
      resolveViewsFn curDb reg (.utable db nm asOf) =
        .ok (.utable db nm asOf) ∧
      resolveViews curDb reg (.utable db nm asOf) =
        .ok (.utable db nm asOf)) ∧
    (∀ defn, reg (resolveDb db curDb) nm = .ok defn →
      resolveViewsFn curDb reg (.utable db nm none) = .ok defn ∧
      resolveViews curDb reg (.utable db nm none) = .ok defn) := by
  constructor
  · intro hreg
    have h1 : resolveViewsFn curDb reg (.utable db nm asOf) =
        .ok (.utable db nm asOf) := by
      simp [resolveViewsFn, Node.resolvedB, hreg]
    exact ⟨h1, by simp [resolveViews, transformUp, h1]⟩
  · intro defn hreg
    have h1 : resolveViewsFn curDb reg (.utable db nm none) = .ok defn := by
      simp [resolveViewsFn, Node.resolvedB, hreg]
    exact ⟨h1, by simp [resolveViews, transformUp, h1]⟩

/-- Witness for C4: an unregistered name stays untouched; the registered
view v1 with no qualifier is substituted verbatim. -/
theorem c4_substitution_and_unregistered_witness :
    resolveViews "dba" regW (.utable "" "nosuch" none) =
      .ok (.utable "" "nosuch" none) ∧
    resolveViews "dba" regW (.utable "" "v1" none) = .ok viewDefW :=
  ⟨((c4_substitution_and_unregistered "dba" regW "" "nosuch" none).1
      (by simp [regW, resolveDb])).2,
   ((c4_substitution_and_unregistered "dba" regW "" "v1" none).2 viewDefW
      (by simp [regW, resolveDb])).2⟩

/-- C5: for a qualified reference to a registered view whose definition has
exactly one child in which every inner reference is unqualified, the result
is the definition rebuilt with the child rewritten by pushing the outer
qualifier onto every inner reference; when the child count differs from
one, the definition is substituted verbatim with no propagation and no
error. -/
theorem c5_qualifier_propagation_single_child (curDb : String)
    (reg : Registry) (db nm : String) (a : Nat) (defn : Node)
    (hreg : reg (resolveDb db curDb) nm = .ok defn) :
    (∀ c, defn.children = [c] → allUnqualified c = true →
      resolveViewsFn curDb reg (.utable db nm (some a)) =
        defn.withChildren [specPropagateAsOf a c] ∧
      resolveViews curDb reg (.utable db nm (some a)) =
        defn.withChildren [specPropagateAsOf a c]) ∧
    (defn.children.length ≠ 1 →
      resolveViewsFn curDb reg (.utable db nm (some a)) = .ok defn ∧
      resolveViews curDb reg (.utable db nm (some a)) = .ok defn) := by
  constructor
  · intro c hc hq
    have h1 : resolveViewsFn curDb reg (.utable db nm (some a)) =
        defn.withChildren [specPropagateAsOf a c] := by
      simp [resolveViewsFn, Node.resolvedB, hreg, hc,
        transformUp_applyAsOf a c hq]
    exact ⟨h1, by simp [resolveViews, transformUp, h1]⟩
  · intro hlen
    have h1 : resolveViewsFn curDb reg (.utable db nm (some a)) = .ok defn := by
      rcases hd : defn.children with _ | ⟨c, cs⟩
      · simp [resolveViewsFn, Node.resolvedB, hreg, hd]
      · rcases cs with _ | ⟨c2, cs2⟩
        · exact absurd (by simp [hd]) hlen
        · simp [resolveViewsFn, Node.resolvedB, hreg, hd]
    exact ⟨h1, by simp [resolveViews, transformUp, h1]⟩

/-- Witness for C5: the qualifier 5 is pushed onto the inner reference of
the single child of the registered view v1. -/
theorem c5_qualifier_propagation_single_child_witness :
    resolveViews "dba" regW (.utable "" "v1" (some 5)) =
      viewDefW.withChildren [specPropagateAsOf 5 (.opn 3 [.utable "" "t" none])] :=
  ((c5_qualifier_propagation_single_child "dba" regW "" "v1" 5 viewDefW
      (by simp [regW, resolveDb])).1 (.opn 3 [.utable "" "t" none])
      (by simp [viewDefW, Node.children])
      (by simp [allUnqualified, allUnqualifiedList, Option.isNone])).2

/-- C1 counterexample: a qualified view reference whose definition contains
an inner reference carrying the very same qualifier value (5 on both sides)
does not resolve: the code raises the incompatible-AsOf error without
comparing the two values, where the claim requires success. -/
theorem c1_counterexample_identical_asof_conflicts :
    resolveViews "dba" regQ (.utable "" "vq" (some 5)) =
      .error (.incompatibleAsOf 5 5) := by
  simp [resolveViews, transformUp, resolveViewsFn, Node.resolvedB, regQ,
    resolveDb, viewDefQ, Node.children, transformUpList, applyAsOf,
    Node.withChildren]

/-- C1 (amended): when the single child of the definition is an inner
reference already carrying any qualifier value, equal by value to the outer
qualifier or not, resolution fails with the incompatible-AsOf error naming
the outer and inner values; identical qualifiers are not treated as
idempotent. -/
theorem c1_amended_any_inner_asof_conflicts (curDb : String) (reg : Registry)
    (db nm : String) (a v : Nat) (tag : Nat) (db1 nm1 : String)
    (hreg : reg (resolveDb db curDb) nm =
      .ok (.opn tag [.utable db1 nm1 (some v)])) :
    resolveViewsFn curDb reg (.utable db nm (some a)) =
      .error (.incompatibleAsOf a v) ∧
    resolveViews curDb reg (.utable db nm (some a)) =
      .error (.incompatibleAsOf a v) := by
  have h1 : resolveViewsFn curDb reg (.utable db nm (some a)) =
      .error (.incompatibleAsOf a v) := by
    simp [resolveViewsFn, Node.resolvedB, hreg, Node.children, transformUp,
      transformUpList, applyAsOf]
  exact ⟨h1, by simp [resolveViews, transformUp, h1]⟩

/-- Witness for the amended C1 with differing qualifier values 3 and 5. -/
theorem c1_amended_any_inner_asof_conflicts_witness :
    resolveViewsFn "dba" regQ (.utable "" "vq" (some 3)) =
      .error (.incompatibleAsOf 3 5) ∧
    resolveViews "dba" regQ (.utable "" "vq" (some 3)) =
      .error (.incompatibleAsOf 3 5) :=
  c1_amended_any_inner_asof_conflicts "dba" regQ "" "vq" 3 5 7 "" "t"
    (by simp [regQ, resolveDb, viewDefQ])

/-- C8: during the whole-tree resolution pass, a missing-view lookup outcome
is swallowed and the reference (and hence the whole tree) is returned
unchanged, while any other lookup error aborts the pass for the whole tree,
returning exactly that error and no tree. -/
theorem c8_lookup_error_aborts_pass (curDb : String) (reg : Registry)
    (db nm : String) (asOf : Option Nat) (tag : Nat) (pre post : List Node)
    (e : SqlErr) (hpre : allResolved pre = true)
    (hpost : allResolved post = true) :
    (reg (resolveDb db curDb) nm = .error .nonExistingView →
      resolveViews curDb reg (.opn tag (pre ++ .utable db nm asOf :: post)) =
        .ok (.opn tag (pre ++ .utable db nm asOf :: post))) ∧
    (reg (resolveDb db curDb) nm = .error e → e ≠ .nonExistingView →
      resolveViews curDb reg (.opn tag (pre ++ .utable db nm asOf :: post)) =
        .error e) := by
  have hfocus := transformUpList_focus curDb reg pre post
    (.utable db nm asOf) hpre hpost
  constructor
  · intro hreg
    have hx : transformUp (resolveViewsFn curDb reg) (.utable db nm asOf) =
        .ok (.utable db nm asOf) := by
      simp [transformUp, resolveViewsFn, Node.resolvedB, hreg]
    rw [hx] at hfocus
    simp [resolveViews, transformUp, hfocus, Node.withChildren,
      resolveViewsFn_opn]
  · intro hreg hne
    have hx : transformUp (resolveViewsFn curDb reg) (.utable db nm asOf) =
        .error e := by
      simp [transformUp, resolveViewsFn, Node.resolvedB, hreg]
    rw [hx] at hfocus
    simp [resolveViews, transformUp, hfocus]

/-- Witness for C8: beside one resolved sibling, an unregistered reference
leaves the tree unchanged, and the lookup error 42 on view vb aborts the
pass with exactly that error. -/
theorem c8_lookup_error_aborts_pass_witness :
    resolveViews "dba" regE (.opn 9 ([.opn 1 []] ++ .utable "" "zz" none :: [])) =
      .ok (.opn 9 ([.opn 1 []] ++ .utable "" "zz" none :: [])) ∧
    resolveViews "dba" regE (.opn 9 ([.opn 1 []] ++ .utable "" "vb" none :: [])) =
      .error (.otherLookup 42) :=
  ⟨(c8_lookup_error_aborts_pass "dba" regE "" "zz" none 9 [.opn 1 []] []
      (.otherLookup 42) (by simp [allResolved, Node.resolvedB])
      (by simp [allResolved])).1 (by simp [regE, resolveDb]),
   (c8_lookup_error_aborts_pass "dba" regE "" "vb" none 9 [.opn 1 []] []
      (.otherLookup 42) (by simp [allResolved, Node.resolvedB])
      (by simp [allResolved])).2 (by simp [regE, resolveDb]) (by simp)⟩

end GMS
